import Mathlib

/-!
Verification of the jane-pdf-renamer core pipeline (src/core/parser.py and
src/core/renamer.py), shallowly embedded over lists of characters.

Strings are modelled as `List Char`; Python whitespace/digit classes are
modelled over their ASCII members; regular-expression searches are modelled
as leftmost-match scans that mirror the deterministic patterns used by the
source.  Filesystem state is modelled as an association list from paths to
file contents, where a file may be present-but-unreadable; the MD5 content
hash is an abstract parameter.  `date.today()` is an explicit parameter.
-/

set_option maxRecDepth 8000

namespace Jane

abbrev LC := List Char

/-- Coerce a literal to the character-list representation used throughout. -/
def strL (x : String) : LC := x.data

/-- ASCII members of Python's whitespace class (str.strip, str.split, regex class). -/
def py_space (c : Char) : Bool :=
  c = ' ' || c = '\t' || c = '\n' || c = '\r' || c = '\x0b' || c = '\x0c'

/-- ASCII decimal digit, the regex digit class over ASCII input. -/
def py_digit (c : Char) : Bool := '0' ≤ c && c ≤ '9'

/-- ASCII word character, as used by regex word boundaries. -/
def word_char (c : Char) : Bool :=
  ('A' ≤ c && c ≤ 'Z') || ('a' ≤ c && c ≤ 'z') || py_digit c || c = '_'

/-- ASCII uppercase letter, the regex class A-Z. -/
def upper_alpha (c : Char) : Bool := 'A' ≤ c && c ≤ 'Z'

/-- Python str.strip(): drop whitespace from both ends. -/
def py_strip (l : LC) : LC :=
  ((l.dropWhile py_space).reverse.dropWhile py_space).reverse

/-- Python str.lower() over ASCII. -/
def py_lower (l : LC) : LC := l.map Char.toLower

/-- Python text.split of a newline-separated string into lines, keeping empties. -/
def split_lines : LC → List LC
  | [] => [[]]
  | c :: cs =>
    let r := split_lines cs
    if c = '\n' then [] :: r
    else
      match r with
      | [] => [[c]]
      | h :: t => (c :: h) :: t

/-- Helper for `py_split`: accumulates the current token (reversed). -/
def py_split_go : LC → LC → List LC
  | acc, [] => if acc = [] then [] else [acc.reverse]
  | acc, c :: cs =>
    if py_space c then
      if acc = [] then py_split_go [] cs else acc.reverse :: py_split_go [] cs
    else py_split_go (c :: acc) cs

/-- Python str.split() with no argument: split on whitespace runs, dropping empties. -/
def py_split (l : LC) : List LC := py_split_go [] l

/-- Python str.isdigit() over ASCII: non-empty and all digits. -/
def py_isdigit (l : LC) : Bool := !l.isEmpty && l.all py_digit

/-- Python ' '.join. -/
def join_space : List LC → LC
  | [] => []
  | [x] => x
  | x :: xs => x ++ ' ' :: join_space xs

/-- Fueled digit accumulator for decimal rendering (structural, so that
concrete evaluation reduces in the kernel). -/
def to_dec_core : Nat → Nat → LC → LC
  | 0, _, acc => acc
  | fuel + 1, n, acc =>
    if n < 10 then Nat.digitChar n :: acc
    else to_dec_core fuel (n / 10) (Nat.digitChar (n % 10) :: acc)

/-- Decimal rendering of a natural number, Python str(int) for the loop counters. -/
def to_dec (n : Nat) : LC := to_dec_core (n + 1) n []

/-- Left inverse of `to_dec`, used to prove it injective. -/
def from_dec (l : LC) : Nat := l.foldl (fun a c => a * 10 + (c.toNat - 48)) 0

/-- A calendar date as Python's datetime.date: year, month, day. -/
structure PyDate where
  year : Nat
  month : Nat
  day : Nat
deriving DecidableEq

/-- Gregorian leap-year rule used by datetime.date. -/
def is_leap (y : Nat) : Bool := y % 4 = 0 && (y % 100 ≠ 0 || y % 400 = 0)

/-- Days in a month of a given year. -/
def days_in_month (y m : Nat) : Nat :=
  if m = 2 then (if is_leap y then 29 else 28)
  else if m = 4 ∨ m = 6 ∨ m = 9 ∨ m = 11 then 30
  else 31

/-- The datetime.date constructor: some date when valid, none when the
constructor would raise ValueError. -/
def mk_date (y m d : Nat) : Option PyDate :=
  if 1 ≤ y ∧ y ≤ 9999 ∧ 1 ≤ m ∧ m ≤ 12 ∧ 1 ≤ d ∧ d ≤ days_in_month y m
  then some ⟨y, m, d⟩ else none

/-- Two-digit zero-padded decimal rendering, strftime %m / %d / %y fields. -/
def two_digits (n : Nat) : LC := if n < 10 then ['0', Nat.digitChar n] else to_dec n

/-- strftime("%m%d%y") on a date. -/
def format_mmddyy (d : PyDate) : LC :=
  two_digits d.month ++ two_digits d.day ++ two_digits (d.year % 100)

/-- MONTH_MAP keys in the alternation order of DATE_PATTERN, with values. -/
def month_names : List (LC × Nat) :=
  [(strL "january", 1), (strL "february", 2), (strL "march", 3), (strL "april", 4),
   (strL "may", 5), (strL "june", 6), (strL "july", 7), (strL "august", 8),
   (strL "september", 9), (strL "october", 10), (strL "november", 11), (strL "december", 12)]

/-- Case-insensitively consume the lowercase word pat from the front of l. -/
def ci_drop_word (pat l : LC) : Option LC :=
  match pat, l with
  | [], rest => some rest
  | _ :: _, [] => none
  | p :: ps, c :: cs => if c.toLower = p then ci_drop_word ps cs else none

/-- Try each month name of the alternation in order at the current position. -/
def match_month : List (LC × Nat) → LC → Option (Nat × LC)
  | [], _ => none
  | (nm, m) :: rest, l =>
    match ci_drop_word nm l with
    | some r => some (m, r)
    | none => match_month rest l

/-- The maximal leading digit run and the remainder. -/
def take_digits : LC → LC × LC
  | [] => ([], [])
  | c :: cs =>
    if py_digit c then
      let (r, rest) := take_digits cs
      (c :: r, rest)
    else ([], c :: cs)

/-- Numeric value of a digit string, Python int(). -/
def dec_val (l : LC) : Nat := l.foldl (fun a c => a * 10 + (c.toNat - 48)) 0

/-- Attempt DATE_PATTERN at the current position (the leading word boundary is
checked by the caller): month alternation, one or more spaces, a 1-2 digit day,
a comma, optional spaces, a 4-digit year followed by a word boundary.  Returns
the numeric (month, day, year) groups. -/
def try_date_here (l : LC) : Option (Nat × Nat × Nat) :=
  match match_month month_names l with
  | none => none
  | some (m, r1) =>
    let ws := r1.takeWhile py_space
    if ws = [] then none
    else
      let r2 := r1.dropWhile py_space
      let (ds, r3) := take_digits r2
      if ds = [] ∨ 3 ≤ ds.length then none
      else
        match r3 with
        | ',' :: r4 =>
          let r5 := r4.dropWhile py_space
          let (ys, r6) := take_digits r5
          if ys.length = 4 then
            match r6 with
            | [] => some (m, dec_val ds, dec_val ys)
            | c :: _ => if word_char c then none else some (m, dec_val ds, dec_val ys)
          else none
        | _ => none

/-- Is the current position a word boundary given the previous character? -/
def at_boundary : Option Char → Bool
  | none => true
  | some p => !word_char p

/-- The raw leftmost DATE_PATTERN match of re.search: scan positions left to
right, attempting the pattern at each word boundary. -/
def date_scan : Option Char → LC → Option (Nat × Nat × Nat)
  | _, [] => none
  | prev, c :: cs =>
    if at_boundary prev then
      match try_date_here (c :: cs) with
      | some r => some r
      | none => date_scan (some c) cs
    else date_scan (some c) cs

/-- First DATE_PATTERN match of the text, in document order. -/
def first_date_match (t : LC) : Option (Nat × Nat × Nat) := date_scan none t

/-- The scan inside _parse_appointment_date: stop at the first match and
validate it there, yielding none (not-found, no exception) when the date
constructor would raise. -/
def appt_date_go : Option Char → LC → Option PyDate
  | _, [] => none
  | prev, c :: cs =>
    if at_boundary prev then
      match try_date_here (c :: cs) with
      | some (m, d, y) => mk_date y m d
      | none => appt_date_go (some c) cs
    else appt_date_go (some c) cs

/-- _parse_appointment_date: the found flag is the isSome of the result. -/
def parse_appointment_date (t : LC) : Option PyDate := appt_date_go none t

/-- The captured pieces of a DOI_DOB_PATTERN match: the 3-letter code as it
appeared (group 1), and the three 2-digit groups (groups 2-4). -/
structure DoiDob where
  code : LC
  g2 : LC
  g3 : LC
  g4 : LC
deriving DecidableEq

/-- Consume an optional colon, regex fragment colon-question. -/
def eat_opt_colon : LC → LC
  | ':' :: r => r
  | r => r

/-- Consume exactly two digits. -/
def eat_two_digits : LC → Option (LC × LC)
  | a :: b :: xs => if py_digit a ∧ py_digit b then some ([a, b], xs) else none
  | _ => none

/-- Consume an optional slash or dash separator. -/
def eat_sep : LC → LC
  | c :: xs => if c = '/' ∨ c = '-' then xs else c :: xs
  | [] => []

/-- Attempt DOI_DOB_PATTERN at the current position: optional whitespace, an
open paren, DOI or DOB case-insensitively, optional colon, optional
whitespace, three 2-digit groups with optional slash or dash separators, a
close paren, then only whitespace to the end of the line. -/
def doi_dob_here (l : LC) : Option DoiDob :=
  match l.dropWhile py_space with
  | c0 :: c1 :: c2 :: c3 :: rest =>
    if c0 = '(' ∧ c1.toLower = 'd' ∧ c2.toLower = 'o' ∧ (c3.toLower = 'i' ∨ c3.toLower = 'b') then
      let r2 := (eat_opt_colon rest).dropWhile py_space
      match eat_two_digits r2 with
      | none => none
      | some (g2, r3) =>
        match eat_two_digits (eat_sep r3) with
        | none => none
        | some (g3, r4) =>
          match eat_two_digits (eat_sep r4) with
          | none => none
          | some (g4, r5) =>
            match r5 with
            | ')' :: r6 => if r6.all py_space then some ⟨[c1, c2, c3], g2, g3, g4⟩ else none
            | _ => none
    else none
  | _ => none

/-- Leftmost DOI_DOB_PATTERN match of re.search, with the text before the
match start (which re.sub with an empty replacement leaves behind, the match
extending to the end of the line). -/
def doi_dob_search : LC → LC → Option (DoiDob × LC)
  | acc, [] =>
    match doi_dob_here [] with
    | some m => some (m, acc.reverse)
    | none => none
  | acc, c :: cs =>
    match doi_dob_here (c :: cs) with
    | some m => some (m, acc.reverse)
    | none => doi_dob_search (c :: acc) cs

/-- TRAILING_NUMBER_PATTERN.sub: remove a final digit run together with the
whitespace run immediately before it, when both are non-empty. -/
def strip_trailing_number (l : LC) : LC :=
  let r := l.reverse
  let ds := r.takeWhile py_digit
  let r1 := r.dropWhile py_digit
  let ws := r1.takeWhile py_space
  if ds = [] ∨ ws = [] then l else (r1.dropWhile py_space).reverse

/-- Scan lines for the anchor line whose stripped lowercase content is chart,
returning the lines after it. -/
def after_chart : List LC → Option (List LC)
  | [] => none
  | ln :: rest =>
    if py_lower (py_strip ln) = strL "chart" then some rest else after_chart rest

/-- The first line whose stripped content is non-empty, stripped. -/
def first_nonempty : List LC → Option LC
  | [] => none
  | ln :: rest =>
    let st := py_strip ln
    if st = [] then first_nonempty rest else some st

/-- The patient name candidate line: first non-blank line after the anchor. -/
def name_candidate (text : LC) : Option LC :=
  (after_chart (split_lines text)).bind first_nonempty

/-- The name string and optional date code extracted from the candidate line:
with an annotation, the code groups are concatenated under the uppercased code
type and no trailing number is stripped; without one, a trailing number is
stripped. -/
def name_and_code (text : LC) : Option (LC × Option LC) :=
  (name_candidate text).map fun line =>
    match doi_dob_search [] line with
    | some (m, rest) =>
      (py_strip rest, some (m.code.map Char.toUpper ++ m.g2 ++ m.g3 ++ m.g4))
    | none => (py_strip (strip_trailing_number line), none)

/-- The split-point test of the initials loop: both groups non-empty and their
first characters match the uppercased hint letters. -/
def hint_matches (parts : List LC) (h0 h1 : Char) (k : Nat) : Bool :=
  match join_space (parts.take k), join_space (parts.drop k) with
  | cf :: _, cl :: _ => cf.toUpper = h0.toUpper && cl.toUpper = h1.toUpper
  | _, _ => false

/-- The initials loop over the given split indices, returning the groups of
the first index that matches. -/
def hint_search (parts : List LC) (h0 h1 : Char) : List Nat → Option (LC × LC)
  | [] => none
  | k :: ks =>
    if hint_matches parts h0 h1 k
    then some (join_space (parts.take k), join_space (parts.drop k))
    else hint_search parts h0 h1 ks

/-- The initials loop of _parse_patient_name over split indices 1..N-1. -/
def hint_split (parts : List LC) (h0 h1 : Char) : Option (LC × LC) :=
  hint_search parts h0 h1 (List.range' 1 (parts.length - 1))

/-- The hint-driven split attempt: the loop runs only when the hint is
exactly two characters (the truthiness-and-length guard of the source). -/
def hinted_of (parts : List LC) : Option LC → Option (LC × LC)
  | some [a, b] => hint_split parts a b
  | _ => none

/-- The first and last name computed from the word tokens: fewer than two
tokens yield an empty first name; an exactly-two-letter initials hint drives
the split when some split index matches; otherwise the default split applies,
keeping a trailing numeric token attached to the previous word when a date
code is present. -/
def name_from_parts (parts : List LC) (initials : Option LC) (dc : Option LC) : LC × LC :=
  if parts.length < 2 then ([], parts.headD [])
  else
    match hinted_of parts initials with
    | some (f, l) => (f, l)
    | none =>
      if dc.isSome ∧ 3 ≤ parts.length ∧ py_isdigit (parts.getLastD []) then
        (join_space (parts.take (parts.length - 2)), join_space (parts.drop (parts.length - 2)))
      else (join_space parts.dropLast, parts.getLastD [])

/-- The result tuple of _parse_patient_name. -/
structure NameResult where
  first_name : LC
  last_name : LC
  found : Bool
  date_code : Option LC
deriving DecidableEq

/-- _parse_patient_name: anchor scan, candidate line, date-code extraction,
token split. -/
def parse_patient_name (text : LC) (initials : Option LC) : NameResult :=
  match name_and_code text with
  | none => ⟨[], [], false, none⟩
  | some (nm, dc) =>
    let fl := name_from_parts (py_split nm) initials dc
    ⟨fl.1, fl.2, true, dc⟩

/-- Attempt INITIALS_PATTERN at the current position: underscore, two
uppercase letters, underscore, eight digits, underscore. -/
def initials_here : LC → Option LC
  | '_' :: a :: b :: '_' :: d1 :: d2 :: d3 :: d4 :: d5 :: d6 :: d7 :: d8 :: '_' :: _ =>
    if upper_alpha a && upper_alpha b && [d1, d2, d3, d4, d5, d6, d7, d8].all py_digit
    then some [a, b] else none
  | _ => none

/-- Leftmost INITIALS_PATTERN match. -/
def initials_search : LC → Option LC
  | [] => none
  | c :: cs =>
    match initials_here (c :: cs) with
    | some r => some r
    | none => initials_search cs

/-- extract_initials_from_filename. -/
def extract_initials_from_filename (fn : LC) : Option LC := initials_search fn

/-- _calculate_confidence: the had_initials flag is accepted but unused. -/
def calculate_confidence (name_found date_found had_initials : Bool) : ℚ :=
  if name_found ∧ date_found then 1
  else if name_found ∨ date_found then 1/2
  else 0

/-- The PatientInfo dataclass. -/
structure PatientInfo where
  first_name : LC
  last_name : LC
  appointment_date : Option PyDate
  confidence : ℚ
  date_code : Option LC := none
deriving DecidableEq

/-- PatientInfoParser.parse: extract the initials hint from the filename,
parse name and date, and score confidence with the date code counting as a
date. -/
def parse (text : LC) (filename : Option LC) : PatientInfo :=
  let initials := filename.bind extract_initials_from_filename
  let nr := parse_patient_name text initials
  let ad := parse_appointment_date text
  let has_date := ad.isSome || nr.date_code.isSome
  ⟨nr.first_name, nr.last_name, ad,
    calculate_confidence nr.found has_date initials.isSome, nr.date_code⟩

/-- The FileFormat enumeration. -/
inductive FileFormat where
  | current_discharge
  | appt_billing
  | appt_billing_eval
  | appt_billing_progress
  | appt_billing_discharge
deriving DecidableEq

/-- FORMAT_CONFIG: (use_current_date, suffix) for each format. -/
def format_config : FileFormat → Bool × LC
  | .current_discharge => (true, strL "PT Chart Note")
  | .appt_billing => (false, strL "PT Note")
  | .appt_billing_eval => (false, strL "PT Eval Note")
  | .appt_billing_progress => (false, strL "PT Progress Note")
  | .appt_billing_discharge => (false, strL "PT Discharge Note")

/-- The characters removed by _sanitize_filename. -/
def invalid_chars : LC := ['/', '\\', ':', '<', '>', '"', '|', '?', '*']

/-- _sanitize_filename: successive str.replace of each invalid character by
the empty string. -/
def sanitize_filename (fn : LC) : LC :=
  invalid_chars.foldl (fun acc c => acc.filter (fun x => x != c)) fn

/-- generate_filename, with date.today() passed in explicitly.  Fails exactly
where the source raises ValueError.  The source gates the date-code branch
with Python truthiness, so an empty-string date code behaves like an absent
one: only a non-empty code (a cons cell here) takes the date-code branch. -/
def generate_filename (info : PatientInfo) (fmt : FileFormat) (today : PyDate) :
    Except String LC :=
  let use_current := (format_config fmt).1
  let suffix := (format_config fmt).2
  let date_str? : Option LC :=
    match info.date_code with
    | some (c :: cs) =>
      let date_part : Option LC :=
        if use_current then some (format_mmddyy today)
        else
          match info.appointment_date with
          | some d => some (format_mmddyy d)
          | none => none
      match date_part with
      | some dp => some ((c :: cs) ++ ' ' :: dp)
      | none => some (c :: cs)
    | _ =>
      if use_current then some (format_mmddyy today)
      else
        match info.appointment_date with
        | some d => some (format_mmddyy d)
        | none => none
  match date_str? with
  | none => Except.error "Cannot generate filename without appointment date or date code"
  | some ds =>
    Except.ok (sanitize_filename
      (info.last_name ++ strL ", " ++ info.first_name ++ ' ' :: ds ++ ' ' :: suffix ++ strL ".pdf"))

/-- A filesystem path: a directory and a file name. -/
structure FPath where
  dir : LC
  name : LC
deriving DecidableEq

/-- The filesystem: an association list from paths to contents, where a
present path with none content exists but cannot be read (reads raise). -/
structure FileSys where
  files : List (FPath × Option LC)
deriving DecidableEq

/-- Look a path up: none when absent, some content-state when present. -/
def FileSys.read (fs : FileSys) (p : FPath) : Option (Option LC) :=
  (fs.files.find? (fun e => decide (e.1 = p))).map Prod.snd

/-- Path.exists(). -/
def FileSys.pexists (fs : FileSys) (p : FPath) : Bool := (fs.read p).isSome

/-- Remove every entry at a path. -/
def FileSys.remove (fs : FileSys) (p : FPath) : FileSys :=
  ⟨fs.files.filter (fun e => decide (e.1 ≠ p))⟩

/-- _compute_full_hash: the chunked MD5 of the file content; none models the
exception when the path is absent or unreadable.  The hash function itself is
an abstract parameter. -/
def compute_full_hash (md5 : LC → LC) (fs : FileSys) (p : FPath) : Option LC :=
  match fs.read p with
  | some (some c) => some (md5 c)
  | _ => none

/-- _compute_short_hash: the first six characters of the full hash. -/
def compute_short_hash (md5 : LC → LC) (fs : FileSys) (p : FPath) : Option LC :=
  (compute_full_hash md5 fs p).map (List.take 6)

/-- _files_are_identical: hash both files, returning false (not an error)
when either hash raises. -/
def files_are_identical (md5 : LC → LC) (fs : FileSys) (p1 p2 : FPath) : Bool :=
  match compute_full_hash md5 fs p1, compute_full_hash md5 fs p2 with
  | some h1, some h2 => decide (h1 = h2)
  | _, _ => false

/-- pathlib Path.stem: the name up to its last dot, when that dot is neither
the first nor the last character. -/
def path_stem (nm : LC) : LC :=
  let r := nm.reverse
  let suf := r.takeWhile (fun c => c != '.')
  let rest := r.dropWhile (fun c => c != '.')
  match rest with
  | '.' :: pre => if pre ≠ [] ∧ suf ≠ [] then pre.reverse else nm
  | _ => nm

/-- The candidate names tried by _handle_collision, in order: the plain
hash-suffixed name, then counter-suffixed variants. -/
def cand_name (stem h6 : LC) : Nat → LC
  | 0 => stem ++ '_' :: h6 ++ strL ".pdf"
  | Nat.succ k => stem ++ '_' :: h6 ++ '_' :: to_dec (k + 1) ++ strL ".pdf"

/-- The while loop of _handle_collision: try candidates in order until one
does not exist.  The fuel bounds the search; with fuel exceeding the number of
files the loop always finds a free candidate, as the candidates are pairwise
distinct. -/
def collision_search (fs : FileSys) (dir stem h6 : LC) : Nat → Nat → LC
  | 0, k => cand_name stem h6 k
  | fuel + 1, k =>
    if fs.pexists ⟨dir, cand_name stem h6 k⟩ then collision_search fs dir stem h6 fuel (k + 1)
    else cand_name stem h6 k

/-- _handle_collision: hash the source (none models the exception when it is
unreadable) and append the short hash, disambiguating further with a counter. -/
def handle_collision (md5 : LC → LC) (fs : FileSys) (src tgt : FPath) : Option FPath :=
  (compute_short_hash md5 fs src).map fun h6 =>
    ⟨tgt.dir, collision_search fs tgt.dir (path_stem tgt.name) h6 (fs.files.length + 2) 0⟩

/-- A state-changing filesystem operation performed by rename_file. -/
inductive FsOp where
  | mkdir (d : LC)
  | unlink (p : FPath)
  | move (src tgt : FPath)
deriving DecidableEq

/-- Effect of one operation on the filesystem. -/
def apply_op (fs : FileSys) : FsOp → FileSys
  | .mkdir _ => fs
  | .unlink p => fs.remove p
  | .move a b =>
    match fs.read a with
    | some e => ⟨(b, e) :: ((fs.remove a).remove b).files⟩
    | none => fs

/-- Effect of a sequence of operations. -/
def apply_ops (fs : FileSys) (ops : List FsOp) : FileSys := ops.foldl apply_op fs

/-- The mkdir performed when an output folder is configured. -/
def dir_ops_of : Option LC → List FsOp
  | some d => [FsOp.mkdir d]
  | none => []

/-- The target directory: the output folder, or the source's directory. -/
def target_dir_of : Option LC → FPath → LC
  | some d, _ => d
  | none, src => src.dir

/-- rename_file: returns the ordered trace of state-changing filesystem
operations it performed together with the outcome (the final path, or the
exception).  Reads that raise (absent source, unreadable file at a hash
computation) surface as errors at the same program points as in the source. -/
def rename_file (md5 : LC → LC) (fs : FileSys) (output_folder : Option LC)
    (fmt : FileFormat) (src : FPath) (info : PatientInfo) (today : PyDate) :
    List FsOp × Except String FPath :=
  if fs.pexists src = false then ([], .error "FileNotFoundError")
  else
    match generate_filename info fmt today with
    | .error e => ([], .error e)
    | .ok fname =>
      if fs.pexists ⟨target_dir_of output_folder src, fname⟩ ∧
          (⟨target_dir_of output_folder src, fname⟩ : FPath) ≠ src then
        if files_are_identical md5 fs src ⟨target_dir_of output_folder src, fname⟩ then
          match compute_short_hash md5 fs src with
          | none =>
            (dir_ops_of output_folder ++ [FsOp.unlink ⟨target_dir_of output_folder src, fname⟩],
             .error "OSError")
          | some _ =>
            (dir_ops_of output_folder ++
              [FsOp.unlink ⟨target_dir_of output_folder src, fname⟩,
               FsOp.move src ⟨target_dir_of output_folder src, fname⟩],
             .ok ⟨target_dir_of output_folder src, fname⟩)
        else
          match handle_collision md5 fs src ⟨target_dir_of output_folder src, fname⟩ with
          | none => (dir_ops_of output_folder, .error "OSError")
          | some nt => (dir_ops_of output_folder ++ [FsOp.move src nt], .ok nt)
      else
        match compute_short_hash md5 fs src with
        | none => (dir_ops_of output_folder, .error "OSError")
        | some _ =>
          (dir_ops_of output_folder ++ [FsOp.move src ⟨target_dir_of output_folder src, fname⟩],
           .ok ⟨target_dir_of output_folder src, fname⟩)

/-! ### Decimal rendering facts -/

lemma to_dec_core_succ (f n : Nat) (acc : LC) :
    to_dec_core (f + 1) n acc =
      if n < 10 then Nat.digitChar n :: acc
      else to_dec_core f (n / 10) (Nat.digitChar (n % 10) :: acc) := rfl

lemma to_dec_core_append (f : Nat) : ∀ n acc, n < 10 ^ f →
    to_dec_core (f + 1) n acc = to_dec_core (f + 1) n [] ++ acc := by
  induction f with
  | zero =>
    intro n acc h
    have hn : n = 0 := by omega
    subst hn
    rfl
  | succ f ih =>
    intro n acc h
    by_cases h10 : n < 10
    · simp [to_dec_core, h10]
    · have hdiv : n / 10 < 10 ^ f := by
        rw [Nat.div_lt_iff_lt_mul (by omega)]
        calc n < 10 ^ (f + 1) := h
          _ = 10 ^ f * 10 := by rw [Nat.pow_succ]
      rw [to_dec_core_succ (f + 1) n acc, to_dec_core_succ (f + 1) n [], if_neg h10, if_neg h10]
      rw [ih (n / 10) (Nat.digitChar (n % 10) :: acc) hdiv,
        ih (n / 10) [Nat.digitChar (n % 10)] hdiv]
      simp

lemma digit_char_val (d : Nat) (h : d < 10) : (Nat.digitChar d).toNat - 48 = d := by
  interval_cases d <;> decide

lemma from_dec_to_dec_core (f : Nat) : ∀ n, n < 10 ^ f →
    from_dec (to_dec_core (f + 1) n []) = n := by
  induction f with
  | zero =>
    intro n h
    have hn : n = 0 := by omega
    subst hn
    decide
  | succ f ih =>
    intro n h
    by_cases h10 : n < 10
    · show from_dec (to_dec_core (f + 2) n []) = n
      rw [to_dec_core_succ (f + 1) n [], if_pos h10]
      show 0 * 10 + ((Nat.digitChar n).toNat - 48) = n
      rw [digit_char_val n h10]
      omega
    · have hdiv : n / 10 < 10 ^ f := by
        rw [Nat.div_lt_iff_lt_mul (by omega)]
        calc n < 10 ^ (f + 1) := h
          _ = 10 ^ f * 10 := by rw [Nat.pow_succ]
      show from_dec (to_dec_core (f + 2) n []) = n
      rw [to_dec_core_succ (f + 1) n [], if_neg h10]
      rw [to_dec_core_append f (n / 10) _ hdiv]
      unfold from_dec
      rw [List.foldl_append]
      show from_dec (to_dec_core (f + 1) (n / 10) []) * 10 + ((Nat.digitChar (n % 10)).toNat - 48)
        = n
      rw [ih (n / 10) hdiv, digit_char_val (n % 10) (Nat.mod_lt n (by omega))]
      omega

lemma from_dec_to_dec (n : Nat) : from_dec (to_dec n) = n :=
  from_dec_to_dec_core n n (Nat.lt_pow_self (by omega) n)

lemma to_dec_inj {a b : Nat} (h : to_dec a = to_dec b) : a = b := by
  have ha := from_dec_to_dec a
  have hb := from_dec_to_dec b
  rw [h] at ha
  omega

lemma to_dec_ne_nil (n : Nat) : to_dec n ≠ [] := by
  intro h
  have h0 := from_dec_to_dec n
  rw [h] at h0
  have : from_dec ([] : LC) = 0 := rfl
  rw [this] at h0
  subst h0
  exact absurd h (by decide)

/-! ### The observable extraction outcomes feeding the confidence score -/

/-- Whether name extraction succeeded, as computed inside parse. -/
def name_found (text : LC) (fn : Option LC) : Bool :=
  (parse_patient_name text (fn.bind extract_initials_from_filename)).found

/-- Whether an effective date (appointment date or date code) was found, as
computed inside parse. -/
def effective_date_found (text : LC) (fn : Option LC) : Bool :=
  (parse_appointment_date text).isSome ||
    (parse_patient_name text (fn.bind extract_initials_from_filename)).date_code.isSome

/-! ### Claim theorems -/

/-- C4 counterexample: with the present-but-empty date code (Python's empty
string, falsy in the source's truthiness test), no appointment date and a
non-current-date format, generate_filename fails even though the date code is
not absent, so failure is not confined to the all-three-absent case. -/
theorem claim_c4_cex :
    generate_filename ⟨strL "A", strL "B", none, 1, some []⟩ .appt_billing ⟨2026, 1, 2⟩ =
      .error "Cannot generate filename without appointment date or date code" ∧
    (some ([] : LC) ≠ (none : Option LC)) :=
  ⟨rfl, by decide⟩

/-- C4 amended: generate_filename fails if and only if the date code is absent
or empty, the appointment date is absent, and the format does not use the
current date; otherwise it returns a filename string. -/
theorem claim_c4_amended (info : PatientInfo) (fmt : FileFormat) (today : PyDate) :
    ((∃ e, generate_filename info fmt today = .error e) ↔
      ((info.date_code = none ∨ info.date_code = some []) ∧
        info.appointment_date = none ∧ (format_config fmt).1 = false)) ∧
    ((∃ v, generate_filename info fmt today = .ok v) ↔
      ¬((info.date_code = none ∨ info.date_code = some []) ∧
        info.appointment_date = none ∧ (format_config fmt).1 = false)) := by
  obtain ⟨f, l, ad, conf, dc⟩ := info
  rcases dc with _ | ⟨_ | ⟨c, cs⟩⟩ <;> cases ad <;> cases fmt <;>
    simp [generate_filename, format_config]

/-- C4 amended witness: at a patient with no dates and a non-current-date
format the call fails, while adding an appointment date makes it succeed. -/
theorem claim_c4_amended_witness :
    (∃ e, generate_filename ⟨strL "A", strL "B", none, 1, none⟩ .appt_billing ⟨2026, 1, 2⟩ =
      .error e) ∧
    (∃ v, generate_filename ⟨strL "A", strL "B", some ⟨2025, 12, 18⟩, 1, none⟩ .appt_billing
      ⟨2026, 1, 2⟩ = .ok v) :=
  ⟨(claim_c4_amended ⟨strL "A", strL "B", none, 1, none⟩ .appt_billing ⟨2026, 1, 2⟩).1.mpr
      ⟨Or.inl rfl, rfl, rfl⟩,
   (claim_c4_amended ⟨strL "A", strL "B", some ⟨2025, 12, 18⟩, 1, none⟩ .appt_billing
      ⟨2026, 1, 2⟩).2.mpr (by simp)⟩

/-- C8: the confidence of a parse is 1 iff both the name and an effective date
were found, 0 iff neither was found, and 1/2 otherwise; the initials-hint flag
never changes the score. -/
theorem claim_c8 (text : LC) (fn : Option LC) :
    ((parse text fn).confidence = 1 ↔
      (name_found text fn = true ∧ effective_date_found text fn = true)) ∧
    ((parse text fn).confidence = 0 ↔
      (name_found text fn = false ∧ effective_date_found text fn = false)) ∧
    ((parse text fn).confidence = 1/2 ↔ ¬(name_found text fn = effective_date_found text fn)) ∧
    (∀ nf hd h h', calculate_confidence nf hd h = calculate_confidence nf hd h') := by
  have hconf : (parse text fn).confidence =
      calculate_confidence (name_found text fn) (effective_date_found text fn)
        (fn.bind extract_initials_from_filename).isSome := rfl
  refine ⟨?_, ?_, ?_, fun nf hd h h' => rfl⟩ <;>
    rw [hconf] <;>
    cases hn : name_found text fn <;> cases hd : effective_date_found text fn <;>
      simp [calculate_confidence]

/-- C8 witness: a text with name and date parses at confidence 1. -/
theorem claim_c8_witness :
    (parse (strL "Chart\nTest Patient 1\nDecember 18, 2025") none).confidence = 1 :=
  (claim_c8 (strL "Chart\nTest Patient 1\nDecember 18, 2025") none).1.mpr
    ⟨by decide, by decide⟩

lemma appt_date_go_eq (l : LC) : ∀ prev,
    appt_date_go prev l = (date_scan prev l).bind fun t => mk_date t.2.2 t.1 t.2.1 := by
  induction l with
  | nil => intro prev; rfl
  | cons c cs ih =>
    intro prev
    show (if at_boundary prev then _ else _) = ((if at_boundary prev then _ else _) :
      Option (Nat × Nat × Nat)).bind _
    by_cases hb : at_boundary prev
    · rw [if_pos hb, if_pos hb]
      cases htry : try_date_here (c :: cs) with
      | none => simpa using ih (some c)
      | some r => simp
    · rw [if_neg hb, if_neg hb]
      exact ih (some c)

/-- C7: date extraction looks only at the first DATE_PATTERN match in document
order; when that match is not a valid calendar date the extraction reports
not-found, whatever appears later in the text. -/
theorem claim_c7 (t : LC) (m d y : Nat)
    (h : first_date_match t = some (m, d, y)) (hbad : mk_date y m d = none) :
    parse_appointment_date t = none := by
  show appt_date_go none t = none
  rw [appt_date_go_eq t none]
  show (date_scan none t).bind _ = none
  rw [show date_scan none t = some (m, d, y) from h]
  simpa using hbad

/-- C7 witness: a text whose first date is February 30, 2024 parses to
not-found even though a valid date follows, and the later date alone parses. -/
theorem claim_c7_witness :
    first_date_match (strL "February 30, 2024 and December 18, 2025") = some (2, 30, 2024) ∧
    parse_appointment_date (strL "February 30, 2024 and December 18, 2025") = none ∧
    parse_appointment_date (strL "December 18, 2025") = some ⟨2025, 12, 18⟩ :=
  ⟨by decide,
   claim_c7 (strL "February 30, 2024 and December 18, 2025") 2 30 2024 (by decide) (by decide),
   by decide⟩

lemma py_split_go_ne_nil : ∀ (l acc t : LC), t ∈ py_split_go acc l → t ≠ [] := by
  intro l
  induction l with
  | nil =>
    intro acc t ht
    unfold py_split_go at ht
    by_cases hacc : acc = []
    · rw [if_pos hacc] at ht
      simp at ht
    · rw [if_neg hacc] at ht
      simp at ht
      subst ht
      simpa using hacc
  | cons c cs ih =>
    intro acc t ht
    unfold py_split_go at ht
    by_cases hsp : py_space c
    · rw [if_pos hsp] at ht
      by_cases hacc : acc = []
      · rw [if_pos hacc] at ht
        exact ih [] t ht
      · rw [if_neg hacc] at ht
        rcases List.mem_cons.mp ht with h | h
        · subst h
          simpa using hacc
        · exact ih [] t h
    · rw [if_neg hsp] at ht
      exact ih (c :: acc) t ht

lemma py_split_ne_nil (l : LC) : ∀ t ∈ py_split l, t ≠ [] :=
  fun t ht => py_split_go_ne_nil l [] t ht

lemma join_space_ne_nil : ∀ (ps : List LC), ps ≠ [] → (∀ t ∈ ps, t ≠ []) →
    join_space ps ≠ []
  | [], h, _ => absurd rfl h
  | [x], _, h => by simpa using h x (by simp)
  | _ :: _ :: _, _, _ => by
    show _ ++ ' ' :: _ ≠ []
    simp

lemma hint_matches_ne_nil {parts : List LC} {h0 h1 : Char} {k : Nat}
    (h : hint_matches parts h0 h1 k = true) :
    join_space (parts.take k) ≠ [] ∧ join_space (parts.drop k) ≠ [] := by
  unfold hint_matches at h
  cases hj1 : join_space (parts.take k) with
  | nil =>
    rw [hj1] at h
    cases hj2 : join_space (parts.drop k) <;> rw [hj2] at h <;> simp at h
  | cons a as =>
    cases hj2 : join_space (parts.drop k) with
    | nil =>
      rw [hj1, hj2] at h
      simp at h
    | cons b bs => exact ⟨by simp [hj1], by simp [hj2]⟩

lemma hint_search_ne_nil {parts : List LC} {h0 h1 : Char} :
    ∀ (ks : List Nat) (f l : LC), hint_search parts h0 h1 ks = some (f, l) →
      f ≠ [] ∧ l ≠ [] := by
  intro ks
  induction ks with
  | nil =>
    intro f l h
    simp [hint_search] at h
  | cons k ks ih =>
    intro f l h
    unfold hint_search at h
    by_cases hm : hint_matches parts h0 h1 k
    · rw [if_pos hm] at h
      simp at h
      obtain ⟨hf, hl⟩ := h
      subst hf
      subst hl
      exact hint_matches_ne_nil hm
    · rw [if_neg hm] at h
      exact ih f l h

lemma hinted_of_ne_nil {parts : List LC} {ini : Option LC} {f l : LC}
    (h : hinted_of parts ini = some (f, l)) : f ≠ [] ∧ l ≠ [] := by
  rcases ini with _ | i
  · simp [hinted_of] at h
  · rcases i with _ | ⟨a, _ | ⟨b, _ | ⟨c, rest⟩⟩⟩
    · simp [hinted_of] at h
    · simp [hinted_of] at h
    · exact hint_search_ne_nil _ f l h
    · simp [hinted_of] at h

lemma getLastD_mem : ∀ (l : List LC), l ≠ [] → ∀ d, l.getLastD d ∈ l := by
  intro l
  induction l with
  | nil => intro h; exact absurd rfl h
  | cons a l ih =>
    intro _ d
    rw [List.getLastD_cons]
    cases hl : l with
    | nil => simp [hl, List.getLastD]
    | cons b l' =>
      rw [← hl]
      have := ih (by rw [hl]; simp) a
      exact List.mem_cons_of_mem a this

lemma name_from_parts_ne_nil (parts : List LC) (ini : Option LC) (dc : Option LC)
    (hlen : 2 ≤ parts.length) (htok : ∀ t ∈ parts, t ≠ []) :
    (name_from_parts parts ini dc).1 ≠ [] ∧ (name_from_parts parts ini dc).2 ≠ [] := by
  unfold name_from_parts
  rw [if_neg (by omega)]
  cases hh : hinted_of parts ini with
  | some fl =>
    obtain ⟨f, l⟩ := fl
    simpa using hinted_of_ne_nil hh
  | none =>
    split
    next f l heq => simp at heq
    next heq =>
    split
    next hcond =>
      obtain ⟨-, hl3, -⟩ := hcond
      constructor
      · show join_space (List.take (parts.length - 2) parts) ≠ []
        apply join_space_ne_nil
        · intro hemp
          have : (parts.take (parts.length - 2)).length = parts.length - 2 := by
            rw [List.length_take]
            omega
          rw [hemp] at this
          simp at this
          omega
        · exact fun t ht => htok t (List.mem_of_mem_take ht)
      · show join_space (List.drop (parts.length - 2) parts) ≠ []
        apply join_space_ne_nil
        · intro hemp
          have : (parts.drop (parts.length - 2)).length = 2 := by
            rw [List.length_drop]
            omega
          rw [hemp] at this
          simp at this
        · exact fun t ht => htok t (List.mem_of_mem_drop ht)
    next =>
      constructor
      · show join_space parts.dropLast ≠ []
        apply join_space_ne_nil
        · intro hemp
          have : parts.dropLast.length = parts.length - 1 := List.length_dropLast parts
          rw [hemp] at this
          simp at this
          omega
        · exact fun t ht => htok t (List.dropLast_subset parts ht)
      · show parts.getLastD [] ≠ []
        exact htok _ (getLastD_mem parts (by intro h; rw [h] at hlen; simp at hlen) [])

/-- C2 counterexample: on the single-token name line Madonna, extraction
reports found while the first name is the empty string, so the empty string
is not confined to the not-found case. -/
theorem claim_c2_cex :
    (parse_patient_name (strL "Chart\nMadonna") none).found = true ∧
    (parse_patient_name (strL "Chart\nMadonna") none).first_name = [] := by
  constructor <;> rfl

/-- C2 amended: when extraction fails both name fields are empty, and when it
succeeds on a name line of at least two word tokens both fields are non-empty;
a successful extraction of a zero- or one-token name, however, leaves the
first name (and for zero tokens the last name) empty. -/
theorem claim_c2_amended (text : LC) (ini : Option LC) :
    ((parse_patient_name text ini).found = false →
      (parse_patient_name text ini).first_name = [] ∧
      (parse_patient_name text ini).last_name = []) ∧
    (∀ nm dc, name_and_code text = some (nm, dc) → 2 ≤ (py_split nm).length →
      (parse_patient_name text ini).first_name ≠ [] ∧
      (parse_patient_name text ini).last_name ≠ []) := by
  cases hnc : name_and_code text with
  | none =>
    constructor
    · intro _
      constructor <;> simp [parse_patient_name, hnc]
    · intro nm dc h
      exact absurd h (by simp)
  | some p =>
    obtain ⟨nm, dc⟩ := p
    have hpp : parse_patient_name text ini =
        ⟨(name_from_parts (py_split nm) ini dc).1, (name_from_parts (py_split nm) ini dc).2,
          true, dc⟩ := by
      simp [parse_patient_name, hnc]
    constructor
    · intro hf
      rw [hpp] at hf
      simp at hf
    · intro nm' dc' h hlen
      simp at h
      obtain ⟨hnm, -⟩ := h
      subst hnm
      rw [hpp]
      exact name_from_parts_ne_nil (py_split nm) ini dc hlen (py_split_ne_nil nm)

/-- C2 amended witness: on a two-token name both fields come back non-empty. -/
theorem claim_c2_amended_witness :
    (parse_patient_name (strL "Chart\nTest Patient 1\nDecember 18, 2025") none).first_name ≠ [] ∧
    (parse_patient_name (strL "Chart\nTest Patient 1\nDecember 18, 2025") none).last_name ≠ [] :=
  (claim_c2_amended (strL "Chart\nTest Patient 1\nDecember 18, 2025") none).2
    (strL "Test Patient") none (by decide) (by decide)

lemma hint_search_range_first {parts : List LC} {h0 h1 : Char} :
    ∀ (cnt s k : Nat), s ≤ k → k < s + cnt →
      hint_matches parts h0 h1 k = true →
      (∀ j, s ≤ j → j < k → hint_matches parts h0 h1 j = false) →
      hint_search parts h0 h1 (List.range' s cnt) =
        some (join_space (parts.take k), join_space (parts.drop k)) := by
  intro cnt
  induction cnt with
  | zero =>
    intro s k h1' h2' _ _
    omega
  | succ cnt ih =>
    intro s k hsk hk hm hmin
    rw [List.range'_succ]
    unfold hint_search
    by_cases hms : hint_matches parts h0 h1 s
    · rw [if_pos hms]
      have hks : k = s := by
        by_contra hne
        have hlt : s < k := by omega
        have := hmin s (le_refl s) hlt
        rw [hms] at this
        exact absurd this (by simp)
      subst hks
      rfl
    · rw [if_neg hms]
      have hks : s ≠ k := fun he => hms (he ▸ hm)
      exact ih (s + 1) k (by omega) (by omega) hm (fun j hj1 hj2 => hmin j (by omega) hj2)

lemma hint_search_range_none {parts : List LC} {h0 h1 : Char} :
    ∀ (cnt s : Nat), (∀ j, s ≤ j → j < s + cnt → hint_matches parts h0 h1 j = false) →
      hint_search parts h0 h1 (List.range' s cnt) = none := by
  intro cnt
  induction cnt with
  | zero => intro s _; rfl
  | succ cnt ih =>
    intro s hall
    rw [List.range'_succ]
    unfold hint_search
    rw [if_neg (by simp [hall s (le_refl s) (by omega)])]
    exact ih (s + 1) (fun j hj1 hj2 => hall j (by omega) (by omega))

/-- C5 counterexample: with hint XX (which matches no split point) on the
date-coded name line Alpha Beta 1, the code keeps the trailing numeral with
the previous word, yielding last name Beta 1 rather than the plain
last-token-as-last-name split the claim describes. -/
theorem claim_c5_cex :
    parse_patient_name (strL "Chart\nAlpha Beta 1 (DOI:010125)") (some (strL "XX")) =
      ⟨strL "Alpha", strL "Beta 1", true, some (strL "DOI010125")⟩ ∧
    (parse_patient_name (strL "Chart\nAlpha Beta 1 (DOI:010125)")
        (some (strL "XX"))).last_name ≠ strL "1" :=
  ⟨rfl, by decide⟩

/-- C5 amended: with a two-letter hint and at least two tokens, the split at
the smallest matching index wins; when no index matches, the fallback split is
last token as last name unless a date code is present with at least three
tokens and a purely numeric final token, in which case the last two tokens
jointly form the last name. -/
theorem claim_c5_amended (text : LC) (a b : Char) (nm : LC) (dc : Option LC)
    (hnc : name_and_code text = some (nm, dc))
    (hlen : 2 ≤ (py_split nm).length) :
    (∀ k, 1 ≤ k → k < (py_split nm).length → hint_matches (py_split nm) a b k = true →
      (∀ j, 1 ≤ j → j < k → hint_matches (py_split nm) a b j = false) →
      (parse_patient_name text (some [a, b])).first_name = join_space ((py_split nm).take k) ∧
      (parse_patient_name text (some [a, b])).last_name = join_space ((py_split nm).drop k) ∧
      (parse_patient_name text (some [a, b])).found = true) ∧
    ((∀ k, 1 ≤ k → k < (py_split nm).length → hint_matches (py_split nm) a b k = false) →
      (parse_patient_name text (some [a, b])).found = true ∧
      (if dc.isSome = true ∧ 3 ≤ (py_split nm).length ∧
          py_isdigit ((py_split nm).getLastD []) = true then
        (parse_patient_name text (some [a, b])).first_name =
            join_space ((py_split nm).take ((py_split nm).length - 2)) ∧
          (parse_patient_name text (some [a, b])).last_name =
            join_space ((py_split nm).drop ((py_split nm).length - 2))
      else
        (parse_patient_name text (some [a, b])).first_name =
            join_space (py_split nm).dropLast ∧
          (parse_patient_name text (some [a, b])).last_name = (py_split nm).getLastD [])) := by
  have hpp : parse_patient_name text (some [a, b]) =
      ⟨(name_from_parts (py_split nm) (some [a, b]) dc).1,
        (name_from_parts (py_split nm) (some [a, b]) dc).2, true, dc⟩ := by
    simp [parse_patient_name, hnc]
  constructor
  · intro k hk1 hk2 hm hmin
    have hsearch : hint_split (py_split nm) a b =
        some (join_space ((py_split nm).take k), join_space ((py_split nm).drop k)) :=
      hint_search_range_first ((py_split nm).length - 1) 1 k hk1 (by omega) hm
        (fun j hj1 hj2 => hmin j hj1 hj2)
    have hnfp : name_from_parts (py_split nm) (some [a, b]) dc =
        (join_space ((py_split nm).take k), join_space ((py_split nm).drop k)) := by
      unfold name_from_parts
      rw [if_neg (by omega)]
      simp [hinted_of, hsearch]
    rw [hpp]
    simp [hnfp]
  · intro hall
    have hnone : hint_split (py_split nm) a b = none :=
      hint_search_range_none ((py_split nm).length - 1) 1
        (fun j hj1 hj2 => hall j hj1 (by omega))
    have h_hint : hinted_of (py_split nm) (some [a, b]) = none := by
      simp [hinted_of, hnone]
    constructor
    · rw [hpp]
    · by_cases hcond : dc.isSome = true ∧ 3 ≤ (py_split nm).length ∧
          py_isdigit ((py_split nm).getLastD []) = true
      · rw [if_pos hcond]
        have hnfp : name_from_parts (py_split nm) (some [a, b]) dc =
            (join_space ((py_split nm).take ((py_split nm).length - 2)),
             join_space ((py_split nm).drop ((py_split nm).length - 2))) := by
          unfold name_from_parts
          rw [if_neg (by omega)]
          simp only [h_hint]
          rw [if_pos hcond]
        rw [hpp]
        constructor <;> simp [hnfp]
      · rw [if_neg hcond]
        have hnfp : name_from_parts (py_split nm) (some [a, b]) dc =
            (join_space (py_split nm).dropLast, (py_split nm).getLastD []) := by
          unfold name_from_parts
          rw [if_neg (by omega)]
          simp only [h_hint]
          rw [if_neg hcond]
        rw [hpp]
        constructor <;> simp [hnfp]

/-- C5 amended witness: the hint MJ selects the split after Mary, even though
the fallback would have split after Mary Jane. -/
theorem claim_c5_amended_witness :
    (parse_patient_name (strL "Chart\nMary Jane Watson") (some ['M', 'J'])).first_name =
      strL "Mary" ∧
    (parse_patient_name (strL "Chart\nMary Jane Watson") (some ['M', 'J'])).last_name =
      strL "Jane Watson" := by
  have h := (claim_c5_amended (strL "Chart\nMary Jane Watson") 'M' 'J'
      (strL "Mary Jane Watson") none (by decide) (by decide)).1 1
      (by decide) (by decide) (by decide) (fun j hj1 hj2 => by omega)
  exact ⟨h.1.trans (by decide), h.2.1.trans (by decide)⟩

/-- C6: when the candidate line carries a DOI/DOB annotation, the parser
returns the uppercased code type with the three 2-digit groups concatenated
verbatim as the date code; the split then works on the line with the
annotation removed and no trailing number stripped, and in the no-hint-match
fallback with at least three tokens ending in a purely numeric token the last
two tokens jointly form the last name. -/
theorem claim_c6 (text : LC) (ini : Option LC) (line : LC) (md : DoiDob) (rest : LC)
    (hline : name_candidate text = some line)
    (hm : doi_dob_search [] line = some (md, rest)) :
    (parse_patient_name text ini).date_code =
      some (md.code.map Char.toUpper ++ md.g2 ++ md.g3 ++ md.g4) ∧
    (parse_patient_name text ini).found = true ∧
    ((parse_patient_name text ini).first_name, (parse_patient_name text ini).last_name) =
      name_from_parts (py_split (py_strip rest)) ini
        (some (md.code.map Char.toUpper ++ md.g2 ++ md.g3 ++ md.g4)) ∧
    (hinted_of (py_split (py_strip rest)) ini = none →
      3 ≤ (py_split (py_strip rest)).length →
      py_isdigit ((py_split (py_strip rest)).getLastD []) = true →
      (parse_patient_name text ini).first_name =
        join_space ((py_split (py_strip rest)).take ((py_split (py_strip rest)).length - 2)) ∧
      (parse_patient_name text ini).last_name =
        join_space ((py_split (py_strip rest)).drop ((py_split (py_strip rest)).length - 2))) := by
  have hnc : name_and_code text =
      some (py_strip rest, some (md.code.map Char.toUpper ++ md.g2 ++ md.g3 ++ md.g4)) := by
    unfold name_and_code
    rw [hline]
    simp [hm]
  have hpp : parse_patient_name text ini =
      ⟨(name_from_parts (py_split (py_strip rest)) ini
          (some (md.code.map Char.toUpper ++ md.g2 ++ md.g3 ++ md.g4))).1,
        (name_from_parts (py_split (py_strip rest)) ini
          (some (md.code.map Char.toUpper ++ md.g2 ++ md.g3 ++ md.g4))).2,
        true, some (md.code.map Char.toUpper ++ md.g2 ++ md.g3 ++ md.g4)⟩ := by
    simp [parse_patient_name, hnc]
  refine ⟨by rw [hpp], by rw [hpp], by rw [hpp], ?_⟩
  intro hhint h3 hdig
  have hnfp : name_from_parts (py_split (py_strip rest)) ini
      (some (md.code.map Char.toUpper ++ md.g2 ++ md.g3 ++ md.g4)) =
      (join_space ((py_split (py_strip rest)).take ((py_split (py_strip rest)).length - 2)),
       join_space ((py_split (py_strip rest)).drop ((py_split (py_strip rest)).length - 2))) := by
    unfold name_from_parts
    rw [if_neg (by omega)]
    simp only [hhint]
    rw [if_pos ⟨rfl, h3, hdig⟩]
  rw [hpp]
  exact ⟨congrArg Prod.fst hnfp, congrArg Prod.snd hnfp⟩

/-- C6 witness: the compound-name example with hint TP yields first Test,
last Patient 1, and date code DOI010125. -/
theorem claim_c6_witness :
    (parse_patient_name (strL "Chart\nTest Patient 1 (DOI:010125)\nDecember 18, 2025")
        (some (strL "TP"))).date_code = some (strL "DOI010125") ∧
    (parse_patient_name (strL "Chart\nTest Patient 1 (DOI:010125)\nDecember 18, 2025")
        (some (strL "TP"))).first_name = strL "Test" ∧
    (parse_patient_name (strL "Chart\nTest Patient 1 (DOI:010125)\nDecember 18, 2025")
        (some (strL "TP"))).last_name = strL "Patient 1" := by
  have h := claim_c6 (strL "Chart\nTest Patient 1 (DOI:010125)\nDecember 18, 2025")
      (some (strL "TP")) (strL "Test Patient 1 (DOI:010125)")
      ⟨strL "DOI", strL "01", strL "01", strL "25"⟩ (strL "Test Patient 1")
      (by decide) (by decide)
  exact ⟨h.1.trans (by decide), (congrArg Prod.fst h.2.2.1).trans (by decide),
    (congrArg Prod.snd h.2.2.1).trans (by decide)⟩

lemma find?_filter_ne : ∀ (l : List (FPath × Option LC)) (p q : FPath), p ≠ q →
    (l.filter (fun e => decide (e.1 ≠ q))).find? (fun e => decide (e.1 = p)) =
      l.find? (fun e => decide (e.1 = p)) := by
  intro l p q h
  induction l with
  | nil => rfl
  | cons e l ih =>
    rw [List.filter_cons]
    by_cases heq : e.1 = q
    · have hd : (decide (e.1 ≠ q)) = false := by simp [heq]
      rw [hd, if_neg (by simp)]
      rw [@List.find?_cons_of_neg _ (fun e' => decide (e'.1 = p)) e l (by
        simp
        intro hp
        exact h ((hp ▸ heq : p = q)))]
      exact ih
    · have hd : (decide (e.1 ≠ q)) = true := by simp [heq]
      rw [hd, if_pos rfl]
      by_cases hep : e.1 = p
      · rw [@List.find?_cons_of_pos _ (fun e' => decide (e'.1 = p)) e
            (l.filter (fun e' => decide (e'.1 ≠ q))) (by simp [hep]),
          @List.find?_cons_of_pos _ (fun e' => decide (e'.1 = p)) e l (by simp [hep])]
      · rw [@List.find?_cons_of_neg _ (fun e' => decide (e'.1 = p)) e
            (l.filter (fun e' => decide (e'.1 ≠ q))) (by simp [hep]),
          @List.find?_cons_of_neg _ (fun e' => decide (e'.1 = p)) e l (by simp [hep])]
        exact ih

lemma read_remove_ne (fs : FileSys) (p q : FPath) (h : p ≠ q) :
    (fs.remove q).read p = fs.read p := by
  show ((fs.files.filter (fun e => decide (e.1 ≠ q))).find?
      (fun e => decide (e.1 = p))).map Prod.snd = _
  rw [find?_filter_ne fs.files p q h]
  rfl

lemma read_move_tgt (fs : FileSys) (a b : FPath) (e : Option LC) (h : fs.read a = some e) :
    (apply_op fs (.move a b)).read b = some e := by
  simp only [apply_op]
  rw [h]
  show ((((b, e) :: ((fs.remove a).remove b).files).find?
      (fun e' => decide (e'.1 = b))).map Prod.snd) = some e
  rw [List.find?_cons_of_pos _ (by simp)]
  rfl

lemma read_move_other (fs : FileSys) (a b p : FPath) (hpa : p ≠ a) (hpb : p ≠ b) :
    (apply_op fs (.move a b)).read p = fs.read p := by
  simp only [apply_op]
  cases h : fs.read a with
  | none => rfl
  | some e =>
    have h1 : ((fs.remove a).remove b).read p = fs.read p := by
      rw [read_remove_ne _ p b hpb, read_remove_ne _ p a hpa]
    show ((((b, e) :: ((fs.remove a).remove b).files).find?
        (fun e' => decide (e'.1 = p))).map Prod.snd) = fs.read p
    rw [List.find?_cons_of_neg _ (by simpa using Ne.symm hpb)]
    exact h1

lemma apply_ops_append (fs : FileSys) (l1 l2 : List FsOp) :
    apply_ops fs (l1 ++ l2) = apply_ops (apply_ops fs l1) l2 := by
  unfold apply_ops
  exact List.foldl_append apply_op fs l1 l2

lemma apply_ops_dir_ops (fs : FileSys) (o : Option LC) (rest : List FsOp) :
    apply_ops fs (dir_ops_of o ++ rest) = apply_ops fs rest := by
  cases o <;> rfl

lemma apply_ops_dir_ops_only (fs : FileSys) (o : Option LC) :
    apply_ops fs (dir_ops_of o) = fs := by
  cases o <;> rfl

lemma dir_ops_mkdir (o : Option LC) : ∀ op ∈ dir_ops_of o, ∃ d, op = FsOp.mkdir d := by
  cases o <;> simp [dir_ops_of]

lemma full_hash_some {md5 : LC → LC} {fs : FileSys} {p : FPath} {h : LC}
    (hh : compute_full_hash md5 fs p = some h) : ∃ c, fs.read p = some (some c) := by
  unfold compute_full_hash at hh
  cases hr : fs.read p with
  | none => rw [hr] at hh; exact absurd hh (by simp)
  | some oc =>
    cases oc with
    | none => rw [hr] at hh; exact absurd hh (by simp)
    | some c => exact ⟨c, rfl⟩

lemma short_hash_some {md5 : LC → LC} {fs : FileSys} {p : FPath} {h : LC}
    (hh : compute_short_hash md5 fs p = some h) : ∃ c, fs.read p = some (some c) := by
  unfold compute_short_hash at hh
  cases hf : compute_full_hash md5 fs p with
  | none => rw [hf] at hh; exact absurd hh (by simp)
  | some hv => exact full_hash_some hf

lemma identical_src_readable {md5 : LC → LC} {fs : FileSys} {p q : FPath}
    (h : files_are_identical md5 fs p q = true) : ∃ c, fs.read p = some (some c) := by
  unfold files_are_identical at h
  cases hp : compute_full_hash md5 fs p with
  | none => rw [hp] at h; exact absurd h (by cases compute_full_hash md5 fs q <;> simp)
  | some hv => exact full_hash_some hp

/-- C3 counterexample: with a byte-identical file already at the target path,
rename_file completes the move but has first deleted the existing target, so
the move is not the only state-changing filesystem step. -/
theorem claim_c3_cex :
    (rename_file id (FileSys.mk
        [(⟨[], strL "in.pdf"⟩, some (strL "C")),
         (⟨[], strL "Patient, Test 121825 PT Note.pdf"⟩, some (strL "C"))])
      none .appt_billing ⟨[], strL "in.pdf"⟩
      ⟨strL "Test", strL "Patient", some ⟨2025, 12, 18⟩, 1, none⟩ ⟨2026, 1, 2⟩).2 =
      .ok ⟨[], strL "Patient, Test 121825 PT Note.pdf"⟩ ∧
    FsOp.unlink ⟨[], strL "Patient, Test 121825 PT Note.pdf"⟩ ∈
      (rename_file id (FileSys.mk
        [(⟨[], strL "in.pdf"⟩, some (strL "C")),
         (⟨[], strL "Patient, Test 121825 PT Note.pdf"⟩, some (strL "C"))])
      none .appt_billing ⟨[], strL "in.pdf"⟩
      ⟨strL "Test", strL "Patient", some ⟨2025, 12, 18⟩, 1, none⟩ ⟨2026, 1, 2⟩).1 :=
  ⟨rfl, by decide⟩

/-- C3 amended: the move is always the last state-changing step and happens
exactly when the call succeeds, leaving the file content at the returned path;
before it, only target-directory creation and the deletion of an
identical-content target may occur, and on failure the source path is
untouched. -/
theorem claim_c3_amended (md5 : LC → LC) (fs : FileSys) (outF : Option LC) (fmt : FileFormat)
    (src : FPath) (info : PatientInfo) (today : PyDate) :
    (∀ t, (rename_file md5 fs outF fmt src info today).2 = .ok t →
      (∃ pre, (rename_file md5 fs outF fmt src info today).1 = pre ++ [FsOp.move src t] ∧
        ∀ op ∈ pre, (∃ d, op = FsOp.mkdir d) ∨ ∃ p, op = FsOp.unlink p) ∧
      (apply_ops fs (rename_file md5 fs outF fmt src info today).1).read t = fs.read src) ∧
    (∀ e, (rename_file md5 fs outF fmt src info today).2 = .error e →
      (∀ a b, FsOp.move a b ∉ (rename_file md5 fs outF fmt src info today).1) ∧
      (apply_ops fs (rename_file md5 fs outF fmt src info today).1).read src = fs.read src) := by
  unfold rename_file
  split
  · exact ⟨fun t h => by exact absurd h (by simp), fun e _ => ⟨by simp, rfl⟩⟩
  · split
    · exact ⟨fun t h => by exact absurd h (by simp), fun e _ => ⟨by simp, rfl⟩⟩
    next fname hgen =>
      split
      next hcol =>
        obtain ⟨hex, hne⟩ := hcol
        split
        next hid =>
          split
          next hsh =>
            refine ⟨fun t h => by exact absurd h (by simp), fun e _ => ⟨?_, ?_⟩⟩
            · intro a b hmem
              rcases List.mem_append.mp hmem with hm | hm
              · obtain ⟨d, hd⟩ := dir_ops_mkdir outF _ hm
                exact absurd hd (by simp)
              · simp at hm
            · rw [apply_ops_dir_ops]
              show (fs.remove _).read src = fs.read src
              exact read_remove_ne fs src _ (Ne.symm hne)
          next hv hsh =>
            obtain ⟨c, hc⟩ := identical_src_readable hid
            refine ⟨fun t h => ?_, fun e h => by exact absurd h (by simp)⟩
            have ht : t = ⟨target_dir_of outF src, fname⟩ := by
              simp at h
              exact h.symm
            subst ht
            constructor
            · refine ⟨dir_ops_of outF ++ [FsOp.unlink ⟨target_dir_of outF src, fname⟩],
                by simp, ?_⟩
              intro op hop
              rcases List.mem_append.mp hop with hm | hm
              · exact Or.inl (dir_ops_mkdir outF _ hm)
              · simp at hm
                exact Or.inr ⟨_, hm⟩
            · rw [apply_ops_dir_ops]
              show (apply_op (apply_op fs (FsOp.unlink ⟨target_dir_of outF src, fname⟩))
                  (FsOp.move src ⟨target_dir_of outF src, fname⟩)).read
                  ⟨target_dir_of outF src, fname⟩ = fs.read src
              have hstep : (apply_op fs (FsOp.unlink ⟨target_dir_of outF src, fname⟩)).read src
                  = some (some c) := by
                show (fs.remove ⟨target_dir_of outF src, fname⟩).read src = some (some c)
                rw [read_remove_ne fs src _ (Ne.symm hne), hc]
              rw [read_move_tgt _ src _ (some c) hstep, hc]
        next hid =>
          split
          next hhc =>
            refine ⟨fun t h => by exact absurd h (by simp), fun e _ => ⟨?_, ?_⟩⟩
            · intro a b hmem
              obtain ⟨d, hd⟩ := dir_ops_mkdir outF _ hmem
              exact absurd hd (by simp)
            · rw [apply_ops_dir_ops_only]
          next nt hhc =>
            have hsh : ∃ h6, compute_short_hash md5 fs src = some h6 := by
              unfold handle_collision at hhc
              cases hs : compute_short_hash md5 fs src with
              | none => rw [hs] at hhc; exact absurd hhc (by simp)
              | some h6 => exact ⟨h6, rfl⟩
            obtain ⟨h6, hsh⟩ := hsh
            obtain ⟨c, hc⟩ := short_hash_some hsh
            refine ⟨fun t h => ?_, fun e h => by exact absurd h (by simp)⟩
            have ht : t = nt := by
              simp at h
              exact h.symm
            subst ht
            constructor
            · refine ⟨dir_ops_of outF, rfl, ?_⟩
              intro op hop
              exact Or.inl (dir_ops_mkdir outF _ hop)
            · rw [apply_ops_dir_ops]
              show (apply_op fs (FsOp.move src t)).read t = fs.read src
              rw [read_move_tgt fs src t (some c) hc, hc]
      next hcol =>
        split
        next hsh =>
          refine ⟨fun t h => by exact absurd h (by simp), fun e _ => ⟨?_, ?_⟩⟩
          · intro a b hmem
            obtain ⟨d, hd⟩ := dir_ops_mkdir outF _ hmem
            exact absurd hd (by simp)
          · rw [apply_ops_dir_ops_only]
        next hv hsh =>
          obtain ⟨c, hc⟩ := short_hash_some hsh
          refine ⟨fun t h => ?_, fun e h => by exact absurd h (by simp)⟩
          have ht : t = ⟨target_dir_of outF src, fname⟩ := by
            simp at h
            exact h.symm
          subst ht
          constructor
          · refine ⟨dir_ops_of outF, rfl, ?_⟩
            intro op hop
            exact Or.inl (dir_ops_mkdir outF _ hop)
          · rw [apply_ops_dir_ops]
            show (apply_op fs (FsOp.move src ⟨target_dir_of outF src, fname⟩)).read
                ⟨target_dir_of outF src, fname⟩ = fs.read src
            rw [read_move_tgt fs src _ (some c) hc, hc]

lemma pexists_iff (fs : FileSys) (p : FPath) :
    fs.pexists p = true ↔ p ∈ fs.files.map Prod.fst := by
  unfold FileSys.pexists FileSys.read
  rw [Option.isSome_map']
  rw [List.find?_isSome]
  constructor
  · rintro ⟨e, he, hd⟩
    simp at hd
    exact List.mem_map.mpr ⟨e, he, hd⟩
  · intro hm
    obtain ⟨e, he, hfst⟩ := List.mem_map.mp hm
    exact ⟨e, he, by simp [hfst]⟩

lemma cand_name_inj (stem h6 : LC) : ∀ j k, cand_name stem h6 j = cand_name stem h6 k →
    j = k := by
  have hlen4 : (strL ".pdf").length = 4 := rfl
  intro j k h
  match j, k with
  | 0, 0 => rfl
  | 0, Nat.succ k =>
    exfalso
    have hl := congrArg List.length h
    simp only [cand_name, List.length_append, List.length_cons, hlen4] at hl
    have hpos : 0 < (to_dec (k + 1)).length :=
      List.length_pos.mpr (to_dec_ne_nil (k + 1))
    omega
  | Nat.succ j, 0 =>
    exfalso
    have hl := congrArg List.length h
    simp only [cand_name, List.length_append, List.length_cons, hlen4] at hl
    have hpos : 0 < (to_dec (j + 1)).length :=
      List.length_pos.mpr (to_dec_ne_nil (j + 1))
    omega
  | Nat.succ j, Nat.succ k =>
    have hj : cand_name stem h6 (j + 1) =
        stem ++ ('_' :: (h6 ++ ('_' :: (to_dec (j + 1) ++ strL ".pdf")))) := by
      simp [cand_name]
    have hk : cand_name stem h6 (k + 1) =
        stem ++ ('_' :: (h6 ++ ('_' :: (to_dec (k + 1) ++ strL ".pdf")))) := by
      simp [cand_name]
    rw [hj, hk] at h
    have h1 := List.append_cancel_left h
    injection h1 with _ h2
    have h3 := List.append_cancel_left h2
    injection h3 with _ h4
    have h5 := List.append_cancel_right h4
    have h6' := to_dec_inj h5
    omega

lemma exists_free_cand (fs : FileSys) (dir stem h6 : LC) :
    ∃ j, j < fs.files.length + 2 ∧ fs.pexists ⟨dir, cand_name stem h6 j⟩ = false := by
  by_contra hno
  push_neg at hno
  have hall : ∀ j, j < fs.files.length + 2 →
      fs.pexists ⟨dir, cand_name stem h6 j⟩ = true := by
    intro j hj
    have hne := hno j hj
    cases hb : fs.pexists ⟨dir, cand_name stem h6 j⟩
    · exact absurd hb hne
    · rfl
  have hnd : ((List.range (fs.files.length + 2)).map
      (fun j => FPath.mk dir (cand_name stem h6 j))).Nodup := by
    apply List.Nodup.map
    · intro x y hxy
      simp only [FPath.mk.injEq] at hxy
      exact cand_name_inj stem h6 x y hxy.2
    · exact List.nodup_range _
  have hsub : ((List.range (fs.files.length + 2)).map
      (fun j => FPath.mk dir (cand_name stem h6 j))) ⊆ fs.files.map Prod.fst := by
    intro p hp
    obtain ⟨j, hj, rfl⟩ := List.mem_map.mp hp
    exact (pexists_iff fs _).mp (hall j (List.mem_range.mp hj))
  have hle := (hnd.subperm hsub).length_le
  simp only [List.length_map, List.length_range] at hle
  omega

lemma collision_search_spec (fs : FileSys) (dir stem h6 : LC) :
    ∀ (fuel k : Nat),
      (∃ j, k ≤ j ∧ j < k + fuel ∧ fs.pexists ⟨dir, cand_name stem h6 j⟩ = false) →
      ∃ j, k ≤ j ∧ j < k + fuel ∧
        collision_search fs dir stem h6 fuel k = cand_name stem h6 j ∧
        fs.pexists ⟨dir, cand_name stem h6 j⟩ = false ∧
        ∀ i, k ≤ i → i < j → fs.pexists ⟨dir, cand_name stem h6 i⟩ = true := by
  intro fuel
  induction fuel with
  | zero =>
    rintro k ⟨j, hj1, hj2, -⟩
    omega
  | succ fuel ih =>
    rintro k ⟨j, hj1, hj2, hjf⟩
    by_cases hk : fs.pexists ⟨dir, cand_name stem h6 k⟩ = true
    · have hjk : j ≠ k := by
        intro he
        rw [he] at hjf
        rw [hjf] at hk
        exact absurd hk (by simp)
      obtain ⟨j', hj'1, hj'2, hres, hfree, hmin⟩ :=
        ih (k + 1) ⟨j, by omega, by omega, hjf⟩
      refine ⟨j', by omega, by omega, ?_, hfree, ?_⟩
      · unfold collision_search
        rw [if_pos hk]
        exact hres
      · intro i hi1 hi2
        by_cases hik : i = k
        · rw [hik]
          exact hk
        · exact hmin i (by omega) hi2
    · refine ⟨k, le_refl k, by omega, ?_, ?_, fun i h1 h2 => by omega⟩
      · unfold collision_search
        rw [if_neg hk]
      · cases hb : fs.pexists ⟨dir, cand_name stem h6 k⟩
        · rfl
        · exact absurd hb hk

/-- C9: on a genuine collision the file is placed at the first free candidate
among the stem plus the first six characters of the source's full content
hash, then counter-suffixed variants in order, and the pre-existing target is
left untouched. -/
theorem claim_c9 (md5 : LC → LC) (fs : FileSys) (outF : Option LC) (fmt : FileFormat)
    (src : FPath) (info : PatientInfo) (today : PyDate) (fname cs ct : LC)
    (hok : generate_filename info fmt today = .ok fname)
    (hsrc : fs.read src = some (some cs))
    (htgt : fs.read ⟨target_dir_of outF src, fname⟩ = some (some ct))
    (hne : FPath.mk (target_dir_of outF src) fname ≠ src)
    (hdiff : md5 cs ≠ md5 ct) :
    ∃ j,
      rename_file md5 fs outF fmt src info today =
        (dir_ops_of outF ++ [FsOp.move src ⟨target_dir_of outF src,
            cand_name (path_stem fname) ((md5 cs).take 6) j⟩],
         .ok ⟨target_dir_of outF src, cand_name (path_stem fname) ((md5 cs).take 6) j⟩) ∧
      fs.pexists ⟨target_dir_of outF src,
        cand_name (path_stem fname) ((md5 cs).take 6) j⟩ = false ∧
      (∀ i, i < j → fs.pexists ⟨target_dir_of outF src,
        cand_name (path_stem fname) ((md5 cs).take 6) i⟩ = true) ∧
      (apply_ops fs (rename_file md5 fs outF fmt src info today).1).read
        ⟨target_dir_of outF src, fname⟩ = some (some ct) := by
  have hfullsrc : compute_full_hash md5 fs src = some (md5 cs) := by
    unfold compute_full_hash
    rw [hsrc]
  have hfulltgt : compute_full_hash md5 fs ⟨target_dir_of outF src, fname⟩ = some (md5 ct) := by
    unfold compute_full_hash
    rw [htgt]
  have hid : files_are_identical md5 fs src ⟨target_dir_of outF src, fname⟩ = false := by
    unfold files_are_identical
    rw [hfullsrc, hfulltgt]
    simpa using hdiff
  have hshort : compute_short_hash md5 fs src = some ((md5 cs).take 6) := by
    unfold compute_short_hash
    rw [hfullsrc]
    rfl
  obtain ⟨j, hj1, hj2, hres, hfree, hmin⟩ :=
    collision_search_spec fs (target_dir_of outF src) (path_stem fname) ((md5 cs).take 6)
      (fs.files.length + 2) 0
      (by
        obtain ⟨j0, hj0a, hj0b⟩ :=
          exists_free_cand fs (target_dir_of outF src) (path_stem fname) ((md5 cs).take 6)
        exact ⟨j0, by omega, by omega, hj0b⟩)
  have hhc : handle_collision md5 fs src ⟨target_dir_of outF src, fname⟩ =
      some ⟨target_dir_of outF src, cand_name (path_stem fname) ((md5 cs).take 6) j⟩ := by
    unfold handle_collision
    rw [hshort]
    simp only [Option.map_some']
    rw [hres]
  have hrf : rename_file md5 fs outF fmt src info today =
      (dir_ops_of outF ++ [FsOp.move src ⟨target_dir_of outF src,
          cand_name (path_stem fname) ((md5 cs).take 6) j⟩],
       .ok ⟨target_dir_of outF src, cand_name (path_stem fname) ((md5 cs).take 6) j⟩) := by
    unfold rename_file
    rw [if_neg (by simp [FileSys.pexists, hsrc])]
    simp only [hok]
    rw [if_pos ⟨by simp [FileSys.pexists, htgt], hne⟩]
    rw [if_neg (by simp [hid])]
    simp only [hhc]
  have hcand_ne_tgt : FPath.mk (target_dir_of outF src)
      (cand_name (path_stem fname) ((md5 cs).take 6) j) ≠
      FPath.mk (target_dir_of outF src) fname := by
    intro he
    rw [he] at hfree
    rw [show fs.pexists ⟨target_dir_of outF src, fname⟩ = true by
      simp [FileSys.pexists, htgt]] at hfree
    exact absurd hfree (by simp)
  refine ⟨j, hrf, hfree, fun i hi => hmin i (by omega) hi, ?_⟩
  rw [hrf]
  show (apply_ops fs (dir_ops_of outF ++ [FsOp.move src _])).read _ = some (some ct)
  rw [apply_ops_dir_ops]
  show (apply_op fs (FsOp.move src _)).read _ = some (some ct)
  rw [read_move_other fs src _ _ hne (Ne.symm hcand_ne_tgt)]
  exact htgt

/-- C9 witness: a concrete genuine collision lands the file at the plain
hash-suffixed candidate, leaving the old target in place. -/
theorem claim_c9_witness :
    ∃ j,
      rename_file id (FileSys.mk
          [(⟨[], strL "in.pdf"⟩, some (strL "C")),
           (⟨[], strL "Patient, Test 121825 PT Note.pdf"⟩, some (strL "D"))])
        none .appt_billing ⟨[], strL "in.pdf"⟩
        ⟨strL "Test", strL "Patient", some ⟨2025, 12, 18⟩, 1, none⟩ ⟨2026, 1, 2⟩ =
        (dir_ops_of none ++ [FsOp.move ⟨[], strL "in.pdf"⟩
            ⟨target_dir_of none ⟨[], strL "in.pdf"⟩,
              cand_name (path_stem (strL "Patient, Test 121825 PT Note.pdf"))
                ((id (strL "C")).take 6) j⟩],
         .ok ⟨target_dir_of none ⟨[], strL "in.pdf"⟩,
            cand_name (path_stem (strL "Patient, Test 121825 PT Note.pdf"))
              ((id (strL "C")).take 6) j⟩) ∧
      (FileSys.mk
          [(⟨[], strL "in.pdf"⟩, some (strL "C")),
           (⟨[], strL "Patient, Test 121825 PT Note.pdf"⟩, some (strL "D"))]).pexists
        ⟨target_dir_of none ⟨[], strL "in.pdf"⟩,
          cand_name (path_stem (strL "Patient, Test 121825 PT Note.pdf"))
            ((id (strL "C")).take 6) j⟩ = false ∧
      (∀ i, i < j → (FileSys.mk
          [(⟨[], strL "in.pdf"⟩, some (strL "C")),
           (⟨[], strL "Patient, Test 121825 PT Note.pdf"⟩, some (strL "D"))]).pexists
        ⟨target_dir_of none ⟨[], strL "in.pdf"⟩,
          cand_name (path_stem (strL "Patient, Test 121825 PT Note.pdf"))
            ((id (strL "C")).take 6) i⟩ = true) ∧
      (apply_ops (FileSys.mk
          [(⟨[], strL "in.pdf"⟩, some (strL "C")),
           (⟨[], strL "Patient, Test 121825 PT Note.pdf"⟩, some (strL "D"))])
        (rename_file id (FileSys.mk
            [(⟨[], strL "in.pdf"⟩, some (strL "C")),
             (⟨[], strL "Patient, Test 121825 PT Note.pdf"⟩, some (strL "D"))])
          none .appt_billing ⟨[], strL "in.pdf"⟩
          ⟨strL "Test", strL "Patient", some ⟨2025, 12, 18⟩, 1, none⟩ ⟨2026, 1, 2⟩).1).read
        ⟨target_dir_of none ⟨[], strL "in.pdf"⟩, strL "Patient, Test 121825 PT Note.pdf"⟩ =
        some (some (strL "D")) :=
  claim_c9 id (FileSys.mk
      [(⟨[], strL "in.pdf"⟩, some (strL "C")),
       (⟨[], strL "Patient, Test 121825 PT Note.pdf"⟩, some (strL "D"))])
    none .appt_billing ⟨[], strL "in.pdf"⟩
    ⟨strL "Test", strL "Patient", some ⟨2025, 12, 18⟩, 1, none⟩ ⟨2026, 1, 2⟩
    (strL "Patient, Test 121825 PT Note.pdf") (strL "C") (strL "D")
    rfl rfl rfl (by decide) (by decide)

/-- C10: when hashing the source or the existing same-named target raises,
the identity check returns false rather than propagating, and rename_file
goes down the genuine-collision branch: the existing target is never deleted
(no unlink appears in the trace and it remains readable unchanged), and when
the source itself is hashable the file is moved to the hash-suffixed path
produced by the collision handler. -/
theorem claim_c10 (md5 : LC → LC) (fs : FileSys) (outF : Option LC) (fmt : FileFormat)
    (src : FPath) (info : PatientInfo) (today : PyDate) (fname : LC) (se ct : Option LC)
    (hok : generate_filename info fmt today = .ok fname)
    (hsrc : fs.read src = some se)
    (htgt : fs.read ⟨target_dir_of outF src, fname⟩ = some ct)
    (hne : FPath.mk (target_dir_of outF src) fname ≠ src)
    (hfail : compute_full_hash md5 fs src = none ∨
      compute_full_hash md5 fs ⟨target_dir_of outF src, fname⟩ = none) :
    files_are_identical md5 fs src ⟨target_dir_of outF src, fname⟩ = false ∧
    (∀ p, FsOp.unlink p ∉ (rename_file md5 fs outF fmt src info today).1) ∧
    (apply_ops fs (rename_file md5 fs outF fmt src info today).1).read
      ⟨target_dir_of outF src, fname⟩ = some ct ∧
    (∀ hv, compute_full_hash md5 fs src = some hv →
      ∃ nt, handle_collision md5 fs src ⟨target_dir_of outF src, fname⟩ = some nt ∧
        rename_file md5 fs outF fmt src info today =
          (dir_ops_of outF ++ [FsOp.move src nt], .ok nt)) := by
  cases hs : compute_full_hash md5 fs src with
  | none =>
    have hid : files_are_identical md5 fs src ⟨target_dir_of outF src, fname⟩ = false := by
      unfold files_are_identical
      rw [hs]
    have hshort : compute_short_hash md5 fs src = none := by
      unfold compute_short_hash
      rw [hs]
      rfl
    have hhc : handle_collision md5 fs src ⟨target_dir_of outF src, fname⟩ = none := by
      unfold handle_collision
      rw [hshort]
      rfl
    have hrf : rename_file md5 fs outF fmt src info today =
        (dir_ops_of outF, .error "OSError") := by
      unfold rename_file
      rw [if_neg (by simp [FileSys.pexists, hsrc])]
      simp only [hok]
      rw [if_pos ⟨by simp [FileSys.pexists, htgt], hne⟩]
      rw [if_neg (by simp [hid])]
      simp only [hhc]
    refine ⟨hid, ?_, ?_, ?_⟩
    · intro p
      rw [hrf]
      cases outF <;> simp [dir_ops_of]
    · rw [hrf]
      show (apply_ops fs (dir_ops_of outF)).read _ = some ct
      rw [apply_ops_dir_ops_only]
      exact htgt
    · intro hv hfull
      exact absurd hfull (by simp)
  | some hv =>
    have htgtnone : compute_full_hash md5 fs ⟨target_dir_of outF src, fname⟩ = none := by
      rcases hfail with hf | hf
      · rw [hs] at hf
        exact absurd hf (by simp)
      · exact hf
    have hid : files_are_identical md5 fs src ⟨target_dir_of outF src, fname⟩ = false := by
      unfold files_are_identical
      rw [hs, htgtnone]
    have hshort : compute_short_hash md5 fs src = some (hv.take 6) := by
      unfold compute_short_hash
      rw [hs]
      rfl
    obtain ⟨j, hj1, hj2, hres, hfree, hmin⟩ :=
      collision_search_spec fs (target_dir_of outF src) (path_stem fname) (hv.take 6)
        (fs.files.length + 2) 0
        (by
          obtain ⟨j0, hj0a, hj0b⟩ :=
            exists_free_cand fs (target_dir_of outF src) (path_stem fname) (hv.take 6)
          exact ⟨j0, by omega, by omega, hj0b⟩)
    have hhc : handle_collision md5 fs src ⟨target_dir_of outF src, fname⟩ =
        some ⟨target_dir_of outF src, cand_name (path_stem fname) (hv.take 6) j⟩ := by
      unfold handle_collision
      rw [hshort]
      simp only [Option.map_some']
      rw [hres]
    have hrf : rename_file md5 fs outF fmt src info today =
        (dir_ops_of outF ++ [FsOp.move src
            ⟨target_dir_of outF src, cand_name (path_stem fname) (hv.take 6) j⟩],
         .ok ⟨target_dir_of outF src, cand_name (path_stem fname) (hv.take 6) j⟩) := by
      unfold rename_file
      rw [if_neg (by simp [FileSys.pexists, hsrc])]
      simp only [hok]
      rw [if_pos ⟨by simp [FileSys.pexists, htgt], hne⟩]
      rw [if_neg (by simp [hid])]
      simp only [hhc]
    have hcand_ne_tgt : FPath.mk (target_dir_of outF src)
        (cand_name (path_stem fname) (hv.take 6) j) ≠
        FPath.mk (target_dir_of outF src) fname := by
      intro he
      rw [he] at hfree
      rw [show fs.pexists ⟨target_dir_of outF src, fname⟩ = true by
        simp [FileSys.pexists, htgt]] at hfree
      exact absurd hfree (by simp)
    refine ⟨hid, ?_, ?_, ?_⟩
    · intro p
      rw [hrf]
      intro hmem
      rcases List.mem_append.mp hmem with hm | hm
      · obtain ⟨d, hd⟩ := dir_ops_mkdir outF _ hm
        exact absurd hd (by simp)
      · simp at hm
    · rw [hrf]
      show (apply_ops fs (dir_ops_of outF ++ [FsOp.move src _])).read _ = some ct
      rw [apply_ops_dir_ops]
      show (apply_op fs (FsOp.move src _)).read _ = some ct
      rw [read_move_other fs src _ _ hne (Ne.symm hcand_ne_tgt)]
      exact htgt
    · intro hv' hfull
      exact ⟨_, hhc, hrf⟩

/-- C10 witness: with an unreadable existing target, the identity check comes
back false and the rename lands at a hash-suffixed path with no deletion. -/
theorem claim_c10_witness :
    files_are_identical id (FileSys.mk
        [(⟨[], strL "in.pdf"⟩, some (strL "C")),
         (⟨[], strL "Patient, Test 121825 PT Note.pdf"⟩, none)])
      ⟨[], strL "in.pdf"⟩
      ⟨target_dir_of none ⟨[], strL "in.pdf"⟩, strL "Patient, Test 121825 PT Note.pdf"⟩ =
      false ∧
    (∀ p, FsOp.unlink p ∉ (rename_file id (FileSys.mk
        [(⟨[], strL "in.pdf"⟩, some (strL "C")),
         (⟨[], strL "Patient, Test 121825 PT Note.pdf"⟩, none)])
      none .appt_billing ⟨[], strL "in.pdf"⟩
      ⟨strL "Test", strL "Patient", some ⟨2025, 12, 18⟩, 1, none⟩ ⟨2026, 1, 2⟩).1) ∧
    (apply_ops (FileSys.mk
        [(⟨[], strL "in.pdf"⟩, some (strL "C")),
         (⟨[], strL "Patient, Test 121825 PT Note.pdf"⟩, none)])
      (rename_file id (FileSys.mk
          [(⟨[], strL "in.pdf"⟩, some (strL "C")),
           (⟨[], strL "Patient, Test 121825 PT Note.pdf"⟩, none)])
        none .appt_billing ⟨[], strL "in.pdf"⟩
        ⟨strL "Test", strL "Patient", some ⟨2025, 12, 18⟩, 1, none⟩ ⟨2026, 1, 2⟩).1).read
      ⟨target_dir_of none ⟨[], strL "in.pdf"⟩, strL "Patient, Test 121825 PT Note.pdf"⟩ =
      some none ∧
    (∀ hv, compute_full_hash id (FileSys.mk
        [(⟨[], strL "in.pdf"⟩, some (strL "C")),
         (⟨[], strL "Patient, Test 121825 PT Note.pdf"⟩, none)])
      ⟨[], strL "in.pdf"⟩ = some hv →
      ∃ nt, handle_collision id (FileSys.mk
          [(⟨[], strL "in.pdf"⟩, some (strL "C")),
           (⟨[], strL "Patient, Test 121825 PT Note.pdf"⟩, none)])
        ⟨[], strL "in.pdf"⟩
        ⟨target_dir_of none ⟨[], strL "in.pdf"⟩, strL "Patient, Test 121825 PT Note.pdf"⟩ =
        some nt ∧
        rename_file id (FileSys.mk
            [(⟨[], strL "in.pdf"⟩, some (strL "C")),
             (⟨[], strL "Patient, Test 121825 PT Note.pdf"⟩, none)])
          none .appt_billing ⟨[], strL "in.pdf"⟩
          ⟨strL "Test", strL "Patient", some ⟨2025, 12, 18⟩, 1, none⟩ ⟨2026, 1, 2⟩ =
          (dir_ops_of none ++ [FsOp.move ⟨[], strL "in.pdf"⟩ nt], .ok nt)) :=
  claim_c10 id (FileSys.mk
      [(⟨[], strL "in.pdf"⟩, some (strL "C")),
       (⟨[], strL "Patient, Test 121825 PT Note.pdf"⟩, none)])
    none .appt_billing ⟨[], strL "in.pdf"⟩
    ⟨strL "Test", strL "Patient", some ⟨2025, 12, 18⟩, 1, none⟩ ⟨2026, 1, 2⟩
    (strL "Patient, Test 121825 PT Note.pdf") (some (strL "C")) none
    rfl rfl rfl (by decide) (Or.inr rfl)

/-- C3 amended witness: in the identical-target scenario the successful trace
ends with the move and the preceding step is the unlink of the target. -/
theorem claim_c3_amended_witness :
    ∃ pre, (rename_file id (FileSys.mk
        [(⟨[], strL "in.pdf"⟩, some (strL "C")),
         (⟨[], strL "Patient, Test 121825 PT Note.pdf"⟩, some (strL "C"))])
      none .appt_billing ⟨[], strL "in.pdf"⟩
      ⟨strL "Test", strL "Patient", some ⟨2025, 12, 18⟩, 1, none⟩ ⟨2026, 1, 2⟩).1 =
        pre ++ [FsOp.move ⟨[], strL "in.pdf"⟩ ⟨[], strL "Patient, Test 121825 PT Note.pdf"⟩] ∧
      ∀ op ∈ pre, (∃ d, op = FsOp.mkdir d) ∨ ∃ p, op = FsOp.unlink p :=
  ((claim_c3_amended id (FileSys.mk
        [(⟨[], strL "in.pdf"⟩, some (strL "C")),
         (⟨[], strL "Patient, Test 121825 PT Note.pdf"⟩, some (strL "C"))])
      none .appt_billing ⟨[], strL "in.pdf"⟩
      ⟨strL "Test", strL "Patient", some ⟨2025, 12, 18⟩, 1, none⟩ ⟨2026, 1, 2⟩).1
    ⟨[], strL "Patient, Test 121825 PT Note.pdf"⟩ rfl).1

/-- C1: evaluation of generate_filename at the failing input of the claim:
with date_code DOI010125 alongside appointment date 2025-12-18 under the
appt_billing format, the rendered filename contains DOI010125 but also
contains 121825, although the repository's own test
test_generate_filename_prefers_date_code_over_appointment_date asserts that
121825 must not appear. -/
theorem claim_c1_eval :
    generate_filename
        ⟨strL "Test", strL "Patient 1", some ⟨2025, 12, 18⟩, 1, some (strL "DOI010125")⟩
        .appt_billing ⟨2026, 1, 2⟩ =
      .ok (strL "Patient 1, Test DOI010125 121825 PT Note.pdf") ∧
    strL "DOI010125" <:+: strL "Patient 1, Test DOI010125 121825 PT Note.pdf" ∧
    strL "121825" <:+: strL "Patient 1, Test DOI010125 121825 PT Note.pdf" :=
  ⟨rfl, by decide, by decide⟩

end Jane
